import Mathlib

/-!
Verification of snarkVM's flagged integer addition gadget
(`circuit/types/integers/src/add_flagged.rs`) and of the Plaintext
structural equality implementation
(`console/program/src/data/plaintext/equal.rs`).

Machine integers are embedded as natural numbers below `2^W` (the W-bit
bit pattern); the ambient prime field is embedded as `Nat`, which is
faithful for the sums occurring here because the field capacity strictly
exceeds `2^(W+1)` for every supported width, so field addition of two
W-bit embeddings never wraps.
-/

namespace SnarkVM

/-- The mode of a circuit value: a constant baked into the circuit, or a
public/private witness. Mirrors `Mode` from the circuit environment. -/
inductive Mode where
  | Constant : Mode
  | Public : Mode
  | Private : Mode
deriving DecidableEq

/-- `Mode::is_constant`. -/
def Mode.is_constant : Mode → Bool
  | .Constant => true
  | _ => false

/-- A circuit integer of width `W`: its W-bit pattern (`val < 2^W` in all
theorems below) together with its mode. Embeds `Integer<E, I>`. -/
structure CInteger (W : Nat) where
  val : Nat
  mode : Mode
deriving DecidableEq

/-- Modelled from the spec: `Field::to_lower_bits_le(k)` — low-bit
extraction of a field element into `k` boolean limbs, least-significant
first (§3, "Circuit Field Element ... low-bit extraction (decomposition
into a fixed number of boolean limbs least-significant first)"). The
source function lives outside the provided files. -/
def to_lower_bits_le : Nat → Nat → List Bool
  | 0, _ => []
  | k + 1, x => (x % 2 == 1) :: to_lower_bits_le k (x / 2)

/-- Modelled from the spec: `Integer::from_bits_le` — reassemble an
integer value from its boolean limbs, least-significant first. -/
def from_bits_le : List Bool → Nat
  | [] => 0
  | b :: bs => (if b then 1 else 0) + 2 * from_bits_le bs

/-- Rust's slice `split_last`: the last element together with the
remaining prefix, or `none` on the empty slice. -/
def splitLast : List Bool → Option (Bool × List Bool)
  | [] => none
  | [b] => some (b, [])
  | a :: b :: rest => (splitLast (b :: rest)).map (fun r => (r.1, a :: r.2))

/-- Modelled from the spec: `Integer::msb` — the most-significant limb
(sign bit) of a W-bit pattern. -/
def msb (W x : Nat) : Bool := x.testBit (W - 1)

/-- The signed (two's complement) reading of a W-bit pattern. -/
def toSigned (W x : Nat) : Int :=
  if x < 2 ^ (W - 1) then (x : Int) else (x : Int) - 2 ^ W

/-- Modelled from the spec: the native wraparound (overflowing) addition
`console::Integer::overflowing_add` used as the reference in §8 — the sum
wraps modulo `2^W`, and the flag reports that the exact (unsigned, resp.
two's complement) sum does not fit in W bits. -/
def overflowing_add (W : Nat) (signed : Bool) (a b : Nat) : Nat × Bool :=
  ((a + b) % 2 ^ W,
    if signed then
      decide (toSigned W a + toSigned W b < -(2 ^ (W - 1) : Int) ∨
        (2 ^ (W - 1) : Int) ≤ toSigned W a + toSigned W b)
    else
      decide (2 ^ W ≤ a + b))

/-- `Integer::add_flagged` from `add_flagged.rs`. If both operands are
constant, the sum and flag are computed natively and returned as
constants. Otherwise both operands are converted to field elements
(exact, as the field capacity exceeds `2^(W+1)`), summed in the field,
and `W+1` low bits are extracted: the low `W` bits form the sum (a
private witness, since the field sum is non-constant and its bit
decomposition is witnessed privately) and the last bit is the carry.
Unsigned overflow is the carry; signed overflow compares sign bits.
`E::halt` is embedded as `none`. -/
def add_flagged (W : Nat) (signed : Bool) (a b : CInteger W) :
    Option (CInteger W × Bool) :=
  if a.mode.is_constant && b.mode.is_constant then
    let r := overflowing_add W signed a.val b.val
    some (⟨r.1, Mode.Constant⟩, r.2)
  else
    let sum := a.val + b.val
    match splitLast (to_lower_bits_le (W + 1) sum) with
    | some (carry, bits_le) =>
      let s : CInteger W := ⟨from_bits_le bits_le, Mode.Private⟩
      let is_overflow :=
        if signed then
          (msb W a.val == msb W b.val) && (msb W s.val != msb W a.val)
        else carry
      some (s, is_overflow)
    | none => none

/-- A circuit cost: numbers of constant, public and private allocations,
and of constraints. Embeds `Count`. -/
structure Count where
  constants : Nat
  publics : Nat
  privates : Nat
  constraints : Nat
deriving DecidableEq

/-- `Metrics::count` for `AddFlagged` from `add_flagged.rs`. -/
def count (signed : Bool) (W : Nat) (case : Mode × Mode) : Count :=
  match signed with
  | true =>
    match case with
    | (Mode.Constant, Mode.Constant) => ⟨W + 1, 0, 0, 0⟩
    | (Mode.Constant, _) => ⟨0, 0, W + 2, W + 3⟩
    | (_, Mode.Constant) => ⟨0, 0, W + 3, W + 4⟩
    | (_, _) => ⟨0, 0, W + 4, W + 5⟩
  | false =>
    match case with
    | (Mode.Constant, Mode.Constant) => ⟨W + 1, 0, 0, 0⟩
    | (_, _) => ⟨0, 0, W + 1, W + 2⟩

/-- `OutputMode::output_mode` for `AddFlagged` from `add_flagged.rs`. -/
def output_mode (case : Mode × Mode) : Mode :=
  match case with
  | (Mode.Constant, Mode.Constant) => Mode.Constant
  | (_, _) => Mode.Private

/-! ### Arithmetic facts about the bit-level helpers -/

lemma from_bits_to_lower (k : Nat) :
    ∀ x, from_bits_le (to_lower_bits_le k x) = x % 2 ^ k := by
  induction k with
  | zero => intro x; simp [to_lower_bits_le, from_bits_le, Nat.mod_one]
  | succ k ih =>
    intro x
    simp only [to_lower_bits_le, from_bits_le, ih]
    rw [pow_succ', Nat.mod_mul]
    rcases Nat.mod_two_eq_zero_or_one x with h | h <;> simp [h]

lemma to_lower_bits_append (k : Nat) :
    ∀ x, to_lower_bits_le (k + 1) x = to_lower_bits_le k x ++ [x.testBit k] := by
  induction k with
  | zero =>
    intro x
    simp only [to_lower_bits_le, Nat.testBit_zero, List.nil_append]
    rcases Nat.mod_two_eq_zero_or_one x with h | h <;> simp [h]
  | succ k ih =>
    intro x
    have hs : Nat.testBit x (k + 1) = Nat.testBit (x / 2) k := Nat.testBit_succ x k
    calc to_lower_bits_le (k + 1 + 1) x
        = (x % 2 == 1) :: to_lower_bits_le (k + 1) (x / 2) := rfl
      _ = (x % 2 == 1) :: (to_lower_bits_le k (x / 2) ++ [(x / 2).testBit k]) := by
          rw [ih]
      _ = ((x % 2 == 1) :: to_lower_bits_le k (x / 2)) ++ [x.testBit (k + 1)] := by
          rw [hs]; rfl
      _ = to_lower_bits_le (k + 1) x ++ [x.testBit (k + 1)] := rfl

lemma splitLast_append (l : List Bool) (b : Bool) :
    splitLast (l ++ [b]) = some (b, l) := by
  induction l with
  | nil => simp [splitLast]
  | cons a l ih =>
    cases l with
    | nil => simp [splitLast]
    | cons c l2 =>
      simp only [List.cons_append] at ih ⊢
      simp [splitLast, ih]

lemma testBit_eq_decide_le {k x : Nat} (h : x < 2 ^ (k + 1)) :
    x.testBit k = decide (2 ^ k ≤ x) := by
  rw [Nat.testBit_to_div_mod]
  have hpos : 0 < 2 ^ k := Nat.pos_pow_of_pos _ (by decide)
  rcases Nat.lt_or_ge x (2 ^ k) with hx | hx
  · have h0 : x / 2 ^ k = 0 := Nat.div_eq_of_lt hx
    simp [h0, Nat.not_le.mpr hx]
  · have h1 : x / 2 ^ k = 1 := by
      apply Nat.div_eq_of_lt_le (by simpa using hx)
      calc x < 2 ^ (k + 1) := h
        _ = (1 + 1) * 2 ^ k := by ring
    simp [h1, hx]

lemma msb_eq_decide_le {W x : Nat} (hW : 0 < W) (h : x < 2 ^ W) :
    msb W x = decide (2 ^ (W - 1) ≤ x) := by
  unfold msb
  have hW1 : W - 1 + 1 = W := Nat.succ_pred_eq_of_pos hW
  exact testBit_eq_decide_le (by rw [hW1]; exact h)

lemma pow_two_sub_one (W : Nat) (hW : 0 < W) : 2 ^ W = 2 * 2 ^ (W - 1) := by
  conv_lhs => rw [show W = W - 1 + 1 by omega]
  rw [pow_succ']

lemma mod_two_pow_cases {W x : Nat} (hx : x < 2 * 2 ^ W) :
    x % 2 ^ W = if 2 ^ W ≤ x then x - 2 ^ W else x := by
  have hpos : 0 < 2 ^ W := Nat.pos_pow_of_pos _ (by decide)
  rcases Nat.lt_or_ge x (2 ^ W) with h | h
  · rw [if_neg (Nat.not_le.mpr h), Nat.mod_eq_of_lt h]
  · rw [if_pos h, Nat.mod_eq_sub_mod h, Nat.mod_eq_of_lt (by omega)]

/-- The sign-bit formulation of signed overflow used by the circuit agrees
with the two's complement range condition of the native reference. -/
lemma signed_overflow_iff {W a b : Nat} (hW : 0 < W) (ha : a < 2 ^ W)
    (hb : b < 2 ^ W) :
    ((2 ^ (W - 1) ≤ a ↔ 2 ^ (W - 1) ≤ b) ∧
        ¬(2 ^ (W - 1) ≤ (a + b) % 2 ^ W ↔ 2 ^ (W - 1) ≤ a))
      ↔ (toSigned W a + toSigned W b < -(2 ^ (W - 1) : Int) ∨
          (2 ^ (W - 1) : Int) ≤ toSigned W a + toSigned W b) := by
  have h2 : 2 ^ W = 2 * 2 ^ (W - 1) := pow_two_sub_one W hW
  have hmod : (a + b) % 2 ^ W = if 2 ^ W ≤ a + b then a + b - 2 ^ W else a + b :=
    mod_two_pow_cases (by omega)
  have hcast : (2 : Int) ^ W = 2 * (2 : Int) ^ (W - 1) := by exact_mod_cast h2
  have hN : ((2 ^ (W - 1) : Nat) : Int) = (2 : Int) ^ (W - 1) := by push_cast; ring
  have hWc : ((2 ^ W : Nat) : Int) = (2 : Int) ^ W := by push_cast; ring
  rw [hmod]
  unfold toSigned
  split_ifs <;> omega

lemma signed_flag_eq {W a b : Nat} (hW : 0 < W) (ha : a < 2 ^ W)
    (hb : b < 2 ^ W) :
    ((msb W a == msb W b) && (msb W ((a + b) % 2 ^ W) != msb W a))
      = (overflowing_add W true a b).2 := by
  have hs : (a + b) % 2 ^ W < 2 ^ W :=
    Nat.mod_lt _ (Nat.pos_pow_of_pos _ (by decide))
  rw [msb_eq_decide_le hW ha, msb_eq_decide_le hW hb, msb_eq_decide_le hW hs]
  have key := signed_overflow_iff hW ha hb
  have hr : (overflowing_add W true a b).2
      = decide (toSigned W a + toSigned W b < -(2 ^ (W - 1) : Int) ∨
          (2 ^ (W - 1) : Int) ≤ toSigned W a + toSigned W b) := rfl
  rw [hr, Bool.eq_iff_iff]
  simp only [Bool.and_eq_true, beq_iff_eq, bne_iff_ne, decide_eq_true_eq, ne_eq,
    decide_eq_decide]
  exact key

lemma unsigned_flag_eq {W a b : Nat} (ha : a < 2 ^ W) (hb : b < 2 ^ W) :
    (a + b).testBit W = (overflowing_add W false a b).2 := by
  have hr : (overflowing_add W false a b).2 = decide (2 ^ W ≤ a + b) := rfl
  rw [hr]
  apply testBit_eq_decide_le
  have h2 : 2 ^ (W + 1) = 2 * 2 ^ W := by rw [pow_succ']
  omega

lemma split_to_lower (W s : Nat) :
    splitLast (to_lower_bits_le (W + 1) s)
      = some (s.testBit W, to_lower_bits_le W s) := by
  rw [to_lower_bits_append, splitLast_append]

/-- Full characterization of `add_flagged`: on in-range operands it always
succeeds, the sum is the wraparound sum, the flag is the native overflow
indicator, and the result is constant exactly when both operands are. -/
lemma add_flagged_eq {W : Nat} (sg : Bool) (a b : CInteger W) (hW : 0 < W)
    (ha : a.val < 2 ^ W) (hb : b.val < 2 ^ W) :
    add_flagged W sg a b =
      some (⟨(a.val + b.val) % 2 ^ W,
              if a.mode.is_constant && b.mode.is_constant then Mode.Constant
              else Mode.Private⟩,
            (overflowing_add W sg a.val b.val).2) := by
  unfold add_flagged
  rcases hc : (a.mode.is_constant && b.mode.is_constant) with _ | _
  · simp only [hc, Bool.false_eq_true, if_false]
    rw [split_to_lower]
    simp only []
    rw [from_bits_to_lower]
    cases sg with
    | false =>
      simp only [if_false, Bool.false_eq_true]
      rw [unsigned_flag_eq ha hb]
    | true =>
      simp only [if_true]
      rw [signed_flag_eq hW ha hb]
  · simp only [hc, if_true]
    rfl

/-! ### Plaintext structural equality
(`console/program/src/data/plaintext/equal.rs`) -/

/-- Modelled from the spec: a literal value. The console `Literal` type
lives outside the provided files; per the spec's sample scenario it
carries boolean, field and group variants, and its equality gadget
compares values of the same variant (distinct variants are unequal). -/
inductive Literal where
  | boolean : Bool → Literal
  | field : Nat → Literal
  | group : Nat → Literal
deriving DecidableEq

/-- Modelled from the spec: the literal type's own equality gadget
(§4.4, "`Literal` vs `Literal`: delegate to the literal type's own
equality gadget"). -/
def Literal.is_equal : Literal → Literal → Bool
  | .boolean a, .boolean b => a == b
  | .field a, .field b => a == b
  | .group a, .group b => a == b
  | _, _ => false

/-- Modelled from the spec: the literal type's own inequality gadget. -/
def Literal.is_not_equal : Literal → Literal → Bool
  | .boolean a, .boolean b => a != b
  | .field a, .field b => a != b
  | .group a, .group b => a != b
  | _, _ => true

/-- The `Plaintext` tagged union: a literal, a named struct (ordered
members; identifiers embedded as `Nat`), or an ordered list. The
bit-cache component of the Rust enum is omitted: `is_equal`,
`is_not_equal` and `PartialEq` never read it. -/
inductive Plaintext where
  | literal : Literal → Plaintext
  | struct : List (Nat × Plaintext) → Plaintext
  | list : List Plaintext → Plaintext

mutual

/-- `Plaintext::is_equal` from `equal.rs`: literals delegate, structs and
lists first compare member counts, returning `false` outright on a
mismatch, and otherwise fold `&` over pairwise (name and value)
equality; cross-variant comparisons are `false`. `members_equal` /
`elements_equal` are the source's accumulator loops over `zip_eq`. -/
def Plaintext.is_equal : Plaintext → Plaintext → Bool
  | .literal a, .literal b => a.is_equal b
  | .struct a, .struct b =>
    if a.length = b.length then Plaintext.members_equal true a b else false
  | .list a, .list b =>
    if a.length = b.length then Plaintext.elements_equal true a b else false
  | _, _ => false

/-- The member loop of `is_equal`:
`equal = equal & name_a.is_equal(name_b) & plaintext_a.is_equal(plaintext_b)`. -/
def Plaintext.members_equal (acc : Bool) :
    List (Nat × Plaintext) → List (Nat × Plaintext) → Bool
  | [], _ => acc
  | _, [] => acc
  | (na, pa) :: ra, (nb, pb) :: rb =>
    Plaintext.members_equal ((acc && (na == nb)) && pa.is_equal pb) ra rb

/-- The element loop of `is_equal`:
`equal &= plaintext_a.is_equal(plaintext_b)`. -/
def Plaintext.elements_equal (acc : Bool) :
    List Plaintext → List Plaintext → Bool
  | [], _ => acc
  | _, [] => acc
  | pa :: ra, pb :: rb =>
    Plaintext.elements_equal (acc && pa.is_equal pb) ra rb

end

mutual

/-- `Plaintext::is_not_equal` from `equal.rs`: the dual of `is_equal`,
returning `true` outright on a member-count mismatch or cross-variant
comparison, and otherwise folding `|` over pairwise inequality. -/
def Plaintext.is_not_equal : Plaintext → Plaintext → Bool
  | .literal a, .literal b => a.is_not_equal b
  | .struct a, .struct b =>
    if a.length = b.length then Plaintext.members_not_equal false a b
    else true
  | .list a, .list b =>
    if a.length = b.length then Plaintext.elements_not_equal false a b
    else true
  | _, _ => true

/-- The member loop of `is_not_equal`. -/
def Plaintext.members_not_equal (acc : Bool) :
    List (Nat × Plaintext) → List (Nat × Plaintext) → Bool
  | [], _ => acc
  | _, [] => acc
  | (na, pa) :: ra, (nb, pb) :: rb =>
    Plaintext.members_not_equal
      ((acc || (na != nb)) || pa.is_not_equal pb) ra rb

/-- The element loop of `is_not_equal`. -/
def Plaintext.elements_not_equal (acc : Bool) :
    List Plaintext → List Plaintext → Bool
  | [], _ => acc
  | _, [] => acc
  | pa :: ra, pb :: rb =>
    Plaintext.elements_not_equal (acc || pa.is_not_equal pb) ra rb

end

/-- `PartialEq::eq` for `Plaintext` from `equal.rs`: defined as the
dereferenced result of `is_equal`. -/
def Plaintext.eq (a b : Plaintext) : Bool := a.is_equal b

/-! ### Lemmas about the equality folds -/

lemma members_equal_acc :
    ∀ (xs ys : List (Nat × Plaintext)) (acc : Bool),
      Plaintext.members_equal acc xs ys
        = (acc && Plaintext.members_equal true xs ys) := by
  intro xs
  induction xs with
  | nil => intro ys acc; simp [Plaintext.members_equal]
  | cons x ra ih =>
    intro ys acc
    cases ys with
    | nil => simp [Plaintext.members_equal]
    | cons y rb =>
      obtain ⟨na, pa⟩ := x
      obtain ⟨nb, pb⟩ := y
      simp only [Plaintext.members_equal]
      rw [ih rb ((acc && (na == nb)) && pa.is_equal pb),
          ih rb ((true && (na == nb)) && pa.is_equal pb)]
      simp [Bool.and_assoc]

lemma elements_equal_acc :
    ∀ (xs ys : List Plaintext) (acc : Bool),
      Plaintext.elements_equal acc xs ys
        = (acc && Plaintext.elements_equal true xs ys) := by
  intro xs
  induction xs with
  | nil => intro ys acc; simp [Plaintext.elements_equal]
  | cons pa ra ih =>
    intro ys acc
    cases ys with
    | nil => simp [Plaintext.elements_equal]
    | cons pb rb =>
      simp only [Plaintext.elements_equal]
      rw [ih rb (acc && pa.is_equal pb), ih rb (true && pa.is_equal pb)]
      simp [Bool.and_assoc]

lemma members_not_equal_acc :
    ∀ (xs ys : List (Nat × Plaintext)) (acc : Bool),
      Plaintext.members_not_equal acc xs ys
        = (acc || Plaintext.members_not_equal false xs ys) := by
  intro xs
  induction xs with
  | nil => intro ys acc; simp [Plaintext.members_not_equal]
  | cons x ra ih =>
    intro ys acc
    cases ys with
    | nil => simp [Plaintext.members_not_equal]
    | cons y rb =>
      obtain ⟨na, pa⟩ := x
      obtain ⟨nb, pb⟩ := y
      simp only [Plaintext.members_not_equal]
      rw [ih rb ((acc || (na != nb)) || pa.is_not_equal pb),
          ih rb ((false || (na != nb)) || pa.is_not_equal pb)]
      simp [Bool.or_assoc]

lemma elements_not_equal_acc :
    ∀ (xs ys : List Plaintext) (acc : Bool),
      Plaintext.elements_not_equal acc xs ys
        = (acc || Plaintext.elements_not_equal false xs ys) := by
  intro xs
  induction xs with
  | nil => intro ys acc; simp [Plaintext.elements_not_equal]
  | cons pa ra ih =>
    intro ys acc
    cases ys with
    | nil => simp [Plaintext.elements_not_equal]
    | cons pb rb =>
      simp only [Plaintext.elements_not_equal]
      rw [ih rb (acc || pa.is_not_equal pb),
          ih rb (false || pa.is_not_equal pb)]
      simp [Bool.or_assoc]

lemma literal_duality (a b : Literal) :
    a.is_equal b = !(a.is_not_equal b) := by
  cases a <;> cases b <;>
    simp [Literal.is_equal, Literal.is_not_equal, bne, Bool.not_not]

mutual

lemma plaintext_duality : ∀ (p q : Plaintext),
    p.is_equal q = !(p.is_not_equal q)
  | .literal a, .literal b => by
    simp only [Plaintext.is_equal, Plaintext.is_not_equal]
    exact literal_duality a b
  | .struct a, .struct b => by
    simp only [Plaintext.is_equal, Plaintext.is_not_equal]
    split_ifs with h
    · exact members_duality a b
    · rfl
  | .list a, .list b => by
    simp only [Plaintext.is_equal, Plaintext.is_not_equal]
    split_ifs with h
    · exact elements_duality a b
    · rfl
  | .literal _, .struct _ => rfl
  | .literal _, .list _ => rfl
  | .struct _, .literal _ => rfl
  | .struct _, .list _ => rfl
  | .list _, .literal _ => rfl
  | .list _, .struct _ => rfl

lemma members_duality : ∀ (xs ys : List (Nat × Plaintext)),
    Plaintext.members_equal true xs ys
      = !(Plaintext.members_not_equal false xs ys)
  | [], [] => rfl
  | [], _ :: _ => rfl
  | _ :: _, [] => rfl
  | (na, pa) :: ra, (nb, pb) :: rb => by
    simp only [Plaintext.members_equal, Plaintext.members_not_equal]
    rw [members_equal_acc, members_not_equal_acc, members_duality ra rb,
      plaintext_duality pa pb]
    simp [bne, Bool.not_or, Bool.not_not, Bool.and_assoc]

lemma elements_duality : ∀ (xs ys : List Plaintext),
    Plaintext.elements_equal true xs ys
      = !(Plaintext.elements_not_equal false xs ys)
  | [], [] => rfl
  | [], _ :: _ => rfl
  | _ :: _, [] => rfl
  | pa :: ra, pb :: rb => by
    simp only [Plaintext.elements_equal, Plaintext.elements_not_equal]
    rw [elements_equal_acc, elements_not_equal_acc, elements_duality ra rb,
      plaintext_duality pa pb]
    simp [Bool.not_or, Bool.not_not, Bool.and_assoc]

end

lemma literal_is_equal_iff (a b : Literal) : a.is_equal b = true ↔ a = b := by
  cases a <;> cases b <;> simp [Literal.is_equal]

mutual

lemma plaintext_is_equal_iff : ∀ (p q : Plaintext),
    p.is_equal q = true ↔ p = q
  | .literal a, .literal b => by
    simp only [Plaintext.is_equal, Plaintext.literal.injEq]
    exact literal_is_equal_iff a b
  | .struct a, .struct b => by
    simp only [Plaintext.is_equal, Plaintext.struct.injEq]
    split_ifs with h
    · exact members_is_equal_iff a b h
    · simp only [Bool.false_eq_true, false_iff]
      intro hab
      exact h (by rw [hab])
  | .list a, .list b => by
    simp only [Plaintext.is_equal, Plaintext.list.injEq]
    split_ifs with h
    · exact elements_is_equal_iff a b h
    · simp only [Bool.false_eq_true, false_iff]
      intro hab
      exact h (by rw [hab])
  | .literal _, .struct _ => by simp [Plaintext.is_equal]
  | .literal _, .list _ => by simp [Plaintext.is_equal]
  | .struct _, .literal _ => by simp [Plaintext.is_equal]
  | .struct _, .list _ => by simp [Plaintext.is_equal]
  | .list _, .literal _ => by simp [Plaintext.is_equal]
  | .list _, .struct _ => by simp [Plaintext.is_equal]

lemma members_is_equal_iff : ∀ (xs ys : List (Nat × Plaintext)),
    xs.length = ys.length →
      (Plaintext.members_equal true xs ys = true ↔ xs = ys)
  | [], [] => fun _ => by simp [Plaintext.members_equal]
  | [], _ :: _ => fun h => by simp at h
  | _ :: _, [] => fun h => by simp at h
  | (na, pa) :: ra, (nb, pb) :: rb => fun h => by
    have hlen : ra.length = rb.length := by simpa using h
    simp only [Plaintext.members_equal]
    rw [members_equal_acc]
    simp [Bool.and_eq_true, beq_iff_eq, plaintext_is_equal_iff pa pb,
      members_is_equal_iff ra rb hlen, List.cons.injEq, Prod.mk.injEq,
      and_assoc]

lemma elements_is_equal_iff : ∀ (xs ys : List Plaintext),
    xs.length = ys.length →
      (Plaintext.elements_equal true xs ys = true ↔ xs = ys)
  | [], [] => fun _ => by simp [Plaintext.elements_equal]
  | [], _ :: _ => fun h => by simp at h
  | _ :: _, [] => fun h => by simp at h
  | pa :: ra, pb :: rb => fun h => by
    have hlen : ra.length = rb.length := by simpa using h
    simp only [Plaintext.elements_equal]
    rw [elements_equal_acc]
    simp [Bool.and_eq_true, plaintext_is_equal_iff pa pb,
      elements_is_equal_iff ra rb hlen, List.cons.injEq]

end

/-! ### Remaining helper lemmas -/

lemma to_lower_bits_length (k : Nat) :
    ∀ x, (to_lower_bits_le k x).length = k := by
  induction k with
  | zero => intro x; rfl
  | succ k ih => intro x; simp [to_lower_bits_le, ih]

lemma modes_not_constant {m1 m2 : Mode}
    (h : ¬(m1 = Mode.Constant ∧ m2 = Mode.Constant)) :
    (m1.is_constant && m2.is_constant) = false := by
  cases m1 <;> cases m2 <;> simp_all [Mode.is_constant]

lemma output_mode_of_const {m1 m2 : Mode}
    (h : (m1.is_constant && m2.is_constant) = true) :
    output_mode (m1, m2) = Mode.Constant := by
  cases m1 <;> cases m2 <;> simp_all [Mode.is_constant, output_mode]

lemma output_mode_of_not_const {m1 m2 : Mode}
    (h : (m1.is_constant && m2.is_constant) = false) :
    output_mode (m1, m2) = Mode.Private := by
  cases m1 <;> cases m2 <;> simp_all [Mode.is_constant, output_mode]

lemma overflowing_add_comm (W : Nat) (sg : Bool) (a b : Nat) :
    overflowing_add W sg a b = overflowing_add W sg b a := by
  unfold overflowing_add
  rw [Nat.add_comm a b]
  cases sg <;> simp [Int.add_comm]

lemma sign_flag_comm (x y z : Bool) :
    ((x == y) && (z != x)) = ((y == x) && (z != y)) := by
  cases x <;> cases y <;> cases z <;> rfl

/-! ### Claim theorems -/

/-- Claim C1: for all W-bit operands of equal width and signedness and
every mode combination, `add_flagged` returns a sum equal to the native
wraparound addition of the operands and a flag equal to the native
overflow indicator. -/
theorem add_flagged_matches_native (W : Nat) (sg : Bool) (a b : CInteger W)
    (hW : 0 < W) (ha : a.val < 2 ^ W) (hb : b.val < 2 ^ W) :
    ∃ s f, add_flagged W sg a b = some (s, f) ∧
      s.val = (overflowing_add W sg a.val b.val).1 ∧
      f = (overflowing_add W sg a.val b.val).2 :=
  ⟨_, _, add_flagged_eq sg a b hW ha hb, rfl, rfl⟩

/-- Witness for C1 at W = 8, unsigned, mixed modes (255 + 1). -/
theorem add_flagged_matches_native_witness :
    (0 < 8 ∧ (255 : Nat) < 2 ^ 8 ∧ (1 : Nat) < 2 ^ 8) ∧
      (∃ s f, add_flagged 8 false ⟨255, Mode.Public⟩ ⟨1, Mode.Constant⟩
          = some (s, f) ∧
        s.val = (overflowing_add 8 false 255 1).1 ∧
        f = (overflowing_add 8 false 255 1).2) :=
  ⟨⟨by decide, by decide, by decide⟩,
    add_flagged_matches_native 8 false ⟨255, Mode.Public⟩ ⟨1, Mode.Constant⟩
      (by decide) (by decide) (by decide)⟩

/-- Claim C2: for unsigned operands with at least one non-constant,
`add_flagged` sums the field embeddings of the operands, extracts exactly
W+1 low bits from the field sum, reassembles the low W bits as the
(private) sum, and uses the (W+1)-th bit — `decide (2^W ≤ a + b)` — as
both carry and overflow flag; the reassembled low W bits equal the
wraparound sum. The witness instantiates unsigned MAX + 1, which wraps
to 0 with flag true. -/
theorem add_flagged_unsigned_field_path (W : Nat) (a b : CInteger W)
    (hmode : ¬(a.mode = Mode.Constant ∧ b.mode = Mode.Constant))
    (ha : a.val < 2 ^ W) (hb : b.val < 2 ^ W) :
    (to_lower_bits_le (W + 1) (a.val + b.val)).length = W + 1 ∧
    add_flagged W false a b =
      some (⟨from_bits_le (to_lower_bits_le W (a.val + b.val)), Mode.Private⟩,
            (a.val + b.val).testBit W) ∧
    from_bits_le (to_lower_bits_le W (a.val + b.val))
      = (a.val + b.val) % 2 ^ W ∧
    (a.val + b.val).testBit W = decide (2 ^ W ≤ a.val + b.val) := by
  refine ⟨to_lower_bits_length _ _, ?_, from_bits_to_lower _ _, ?_⟩
  · unfold add_flagged
    rw [modes_not_constant hmode]
    simp only [Bool.false_eq_true, if_false]
    rw [split_to_lower]
  · apply testBit_eq_decide_le
    have h2 : 2 ^ (W + 1) = 2 * 2 ^ W := by rw [pow_succ']
    omega

/-- Witness for C2 at W = 8 with 255 + 1: the sum wraps to 0 and the
carry bit (and hence the flag) is set. -/
theorem add_flagged_unsigned_field_path_witness :
    (¬((Mode.Public : Mode) = Mode.Constant ∧
        (Mode.Private : Mode) = Mode.Constant) ∧
      (255 : Nat) < 2 ^ 8 ∧ (1 : Nat) < 2 ^ 8) ∧
    ((to_lower_bits_le 9 (255 + 1)).length = 9 ∧
      add_flagged 8 false ⟨255, Mode.Public⟩ ⟨1, Mode.Private⟩ =
        some (⟨from_bits_le (to_lower_bits_le 8 (255 + 1)), Mode.Private⟩,
              (255 + 1 : Nat).testBit 8) ∧
      from_bits_le (to_lower_bits_le 8 (255 + 1)) = (255 + 1) % 2 ^ 8 ∧
      (255 + 1 : Nat).testBit 8 = decide (2 ^ 8 ≤ 255 + 1)) ∧
    from_bits_le (to_lower_bits_le 8 (255 + 1)) = 0 ∧
    (255 + 1 : Nat).testBit 8 = true :=
  ⟨⟨by decide, by decide, by decide⟩,
    add_flagged_unsigned_field_path 8 ⟨255, Mode.Public⟩ ⟨1, Mode.Private⟩
      (by decide) (by decide) (by decide),
    by decide, by decide⟩

/-- Claim C3: for signed operands the overflow flag is true iff the
operands share the same sign bit (most-significant limb) and the sign bit
of the result differs from it; consequently, opposite-signed operands
never raise the flag. -/
theorem add_flagged_signed_flag (W : Nat) (a b : CInteger W) (hW : 0 < W)
    (ha : a.val < 2 ^ W) (hb : b.val < 2 ^ W) :
    ∃ s f, add_flagged W true a b = some (s, f) ∧
      (f = true ↔ (msb W a.val = msb W b.val ∧ msb W s.val ≠ msb W a.val)) ∧
      (msb W a.val ≠ msb W b.val → f = false) := by
  refine ⟨_, _, add_flagged_eq true a b hW ha hb, ?_, ?_⟩
  · rw [← signed_flag_eq hW ha hb]
    simp [Bool.and_eq_true, beq_iff_eq, bne_iff_ne]
  · intro hne
    rw [← signed_flag_eq hW ha hb]
    cases hx : msb W a.val <;> cases hy : msb W b.val <;> simp_all

/-- Witness for C3 at W = 8, signed MIN + (−1) (patterns 128 and 255):
an underflow, so the flag is true. -/
theorem add_flagged_signed_flag_witness :
    (0 < 8 ∧ (128 : Nat) < 2 ^ 8 ∧ (255 : Nat) < 2 ^ 8) ∧
      (∃ s f, add_flagged 8 true ⟨128, Mode.Private⟩ ⟨255, Mode.Public⟩
          = some (s, f) ∧
        (f = true ↔ (msb 8 128 = msb 8 255 ∧ msb 8 s.val ≠ msb 8 128)) ∧
        (msb 8 128 ≠ msb 8 255 → f = false)) :=
  ⟨⟨by decide, by decide, by decide⟩,
    add_flagged_signed_flag 8 ⟨128, Mode.Private⟩ ⟨255, Mode.Public⟩
      (by decide) (by decide) (by decide)⟩

/-- Claim C4: `count` is a pure function of the mode pair (given width
and signedness) and reproduces the spec's tables exactly: unsigned —
Constant/Constant costs (W+1, 0, 0, 0), anything else (0, 0, W+1, W+2);
signed — Constant/Constant (W+1, 0, 0, 0), Constant/non-constant
(0, 0, W+2, W+3), non-constant/Constant (0, 0, W+3, W+4), and
non-constant/non-constant (0, 0, W+4, W+5). -/
theorem count_tables (W : Nat) (m1 m2 : Mode) :
    (count false W (m1, m2) =
      if m1 = Mode.Constant ∧ m2 = Mode.Constant then ⟨W + 1, 0, 0, 0⟩
      else ⟨0, 0, W + 1, W + 2⟩) ∧
    (count true W (m1, m2) =
      if m1 = Mode.Constant ∧ m2 = Mode.Constant then ⟨W + 1, 0, 0, 0⟩
      else if m1 = Mode.Constant then ⟨0, 0, W + 2, W + 3⟩
      else if m2 = Mode.Constant then ⟨0, 0, W + 3, W + 4⟩
      else ⟨0, 0, W + 4, W + 5⟩) := by
  cases m1 <;> cases m2 <;> simp [count]

/-- Claim C5: `output_mode` returns Constant iff both input modes are
Constant and Private in every other case (never Public), and the mode of
the sum actually produced by `add_flagged` equals `output_mode` of the
operand modes, for every mode pair. -/
theorem output_mode_spec :
    (∀ m1 m2 : Mode,
      (output_mode (m1, m2) = Mode.Constant
        ↔ m1 = Mode.Constant ∧ m2 = Mode.Constant) ∧
      (¬(m1 = Mode.Constant ∧ m2 = Mode.Constant) →
        output_mode (m1, m2) = Mode.Private) ∧
      output_mode (m1, m2) ≠ Mode.Public) ∧
    (∀ (W : Nat) (sg : Bool) (a b s : CInteger W) (f : Bool),
      add_flagged W sg a b = some (s, f) →
        s.mode = output_mode (a.mode, b.mode)) := by
  constructor
  · intro m1 m2
    refine ⟨?_, ?_, ?_⟩ <;> cases m1 <;> cases m2 <;> simp [output_mode]
  · intro W sg a b s f h
    unfold add_flagged at h
    cases hc : (a.mode.is_constant && b.mode.is_constant) with
    | false =>
      rw [hc] at h
      simp only [Bool.false_eq_true, if_false] at h
      rw [split_to_lower] at h
      simp only [Option.some.injEq, Prod.mk.injEq] at h
      rw [output_mode_of_not_const hc, ← h.1]
    | true =>
      rw [hc] at h
      simp only [if_true] at h
      simp only [Option.some.injEq, Prod.mk.injEq] at h
      rw [output_mode_of_const hc, ← h.1]

/-- Witness for C5: a Public/Constant pair at W = 8 produces a Private
sum, as `output_mode` predicts. -/
theorem output_mode_spec_witness :
    (add_flagged 8 false ⟨1, Mode.Public⟩ ⟨2, Mode.Constant⟩
        = some (⟨3, Mode.Private⟩, false)) ∧
      (⟨3, Mode.Private⟩ : CInteger 8).mode
        = output_mode (Mode.Public, Mode.Constant) :=
  ⟨by decide,
    output_mode_spec.2 8 false ⟨1, Mode.Public⟩ ⟨2, Mode.Constant⟩
      ⟨3, Mode.Private⟩ false (by decide)⟩

/-- Claim C6: flagged addition is commutative — swapping the operands
changes neither the sum value nor the overflow flag value, for all
operands and all modes. -/
theorem add_flagged_comm (W : Nat) (sg : Bool) (a b : CInteger W) :
    (add_flagged W sg a b).map (fun r => (r.1.val, r.2))
      = (add_flagged W sg b a).map (fun r => (r.1.val, r.2)) := by
  unfold add_flagged
  rw [Bool.and_comm b.mode.is_constant a.mode.is_constant,
    Nat.add_comm b.val a.val]
  cases hc : (a.mode.is_constant && b.mode.is_constant) with
  | false =>
    simp only [Bool.false_eq_true, if_false]
    cases hsplit : splitLast (to_lower_bits_le (W + 1) (a.val + b.val)) with
    | none => rfl
    | some r =>
      obtain ⟨c, bits⟩ := r
      cases sg with
      | false => rfl
      | true =>
        simp only [Option.map_some, if_true]
        rw [sign_flag_comm (msb W a.val) (msb W b.val)]
  | true =>
    simp only [if_true, overflowing_add_comm W sg a.val b.val]

/-- Claim C7: `add_flagged` can halt only when the bit extraction of the
field sum yields zero bits (the `none` arm of `splitLast`); since W+1
bits are always requested, that extraction is never empty and
`add_flagged` never halts on any input. -/
theorem add_flagged_never_halts (W : Nat) (sg : Bool) (a b : CInteger W) :
    add_flagged W sg a b ≠ none ∧
      splitLast (to_lower_bits_le (W + 1) (a.val + b.val)) ≠ none := by
  constructor
  · unfold add_flagged
    cases hc : (a.mode.is_constant && b.mode.is_constant) with
    | false =>
      simp only [Bool.false_eq_true, if_false]
      rw [split_to_lower]
      simp
    | true => simp
  · rw [split_to_lower]
    simp

/-- Claim C8: for every pair of Plaintext values, `is_equal` is the
logical negation of `is_not_equal`, across all variants and including
the count-mismatch short-circuit paths. -/
theorem is_equal_negates_is_not_equal (a b : Plaintext) :
    a.is_equal b = !(a.is_not_equal b) :=
  plaintext_duality a b

/-- Claim C9: shape mismatch always decides the comparison constantly:
structs or lists of differing member counts give `is_equal = false` and
`is_not_equal = true` regardless of their members (the universal
quantification over the members expresses that no member is compared),
and every cross-variant comparison likewise yields constant
inequality. -/
theorem shape_mismatch_constant :
    (∀ (a b : List (Nat × Plaintext)), a.length ≠ b.length →
      (Plaintext.struct a).is_equal (Plaintext.struct b) = false ∧
      (Plaintext.struct a).is_not_equal (Plaintext.struct b) = true) ∧
    (∀ (c d : List Plaintext), c.length ≠ d.length →
      (Plaintext.list c).is_equal (Plaintext.list d) = false ∧
      (Plaintext.list c).is_not_equal (Plaintext.list d) = true) ∧
    (∀ (l : Literal) (m : List (Nat × Plaintext)),
      (Plaintext.literal l).is_equal (Plaintext.struct m) = false ∧
      (Plaintext.literal l).is_not_equal (Plaintext.struct m) = true ∧
      (Plaintext.struct m).is_equal (Plaintext.literal l) = false ∧
      (Plaintext.struct m).is_not_equal (Plaintext.literal l) = true) ∧
    (∀ (l : Literal) (e : List Plaintext),
      (Plaintext.literal l).is_equal (Plaintext.list e) = false ∧
      (Plaintext.literal l).is_not_equal (Plaintext.list e) = true ∧
      (Plaintext.list e).is_equal (Plaintext.literal l) = false ∧
      (Plaintext.list e).is_not_equal (Plaintext.literal l) = true) ∧
    (∀ (m : List (Nat × Plaintext)) (e : List Plaintext),
      (Plaintext.struct m).is_equal (Plaintext.list e) = false ∧
      (Plaintext.struct m).is_not_equal (Plaintext.list e) = true ∧
      (Plaintext.list e).is_equal (Plaintext.struct m) = false ∧
      (Plaintext.list e).is_not_equal (Plaintext.struct m) = true) := by
  refine ⟨?_, ?_, ?_, ?_, ?_⟩
  · intro a b h
    constructor <;> simp [Plaintext.is_equal, Plaintext.is_not_equal, h]
  · intro c d h
    constructor <;> simp [Plaintext.is_equal, Plaintext.is_not_equal, h]
  · intro l m
    exact ⟨rfl, rfl, rfl, rfl⟩
  · intro l e
    exact ⟨rfl, rfl, rfl, rfl⟩
  · intro m e
    exact ⟨rfl, rfl, rfl, rfl⟩

/-- Witness for C9: the spec's example — a 2-member struct compared with
a 1-member struct is decided unequal. -/
theorem shape_mismatch_constant_witness :
    ([(0, Plaintext.literal (Literal.boolean true)),
        (1, Plaintext.literal (Literal.field 1))].length
      ≠ [(0, Plaintext.literal (Literal.boolean true))].length) ∧
    ((Plaintext.struct [(0, Plaintext.literal (Literal.boolean true)),
        (1, Plaintext.literal (Literal.field 1))]).is_equal
      (Plaintext.struct [(0, Plaintext.literal (Literal.boolean true))])
        = false ∧
      (Plaintext.struct [(0, Plaintext.literal (Literal.boolean true)),
        (1, Plaintext.literal (Literal.field 1))]).is_not_equal
      (Plaintext.struct [(0, Plaintext.literal (Literal.boolean true))])
        = true) :=
  ⟨by decide,
    shape_mismatch_constant.1
      [(0, Plaintext.literal (Literal.boolean true)),
        (1, Plaintext.literal (Literal.field 1))]
      [(0, Plaintext.literal (Literal.boolean true))] (by decide)⟩

/-- Claim C10: the embedded `PartialEq::eq` (defined, as in the source,
as the boolean produced by `is_equal`) agrees with `is_equal`, and it
holds exactly on structurally equal Plaintext values — so `a == b` iff
`is_equal(a, b)` returns true, and both coincide with value equality. -/
theorem rust_eq_iff_is_equal (a b : Plaintext) :
    (Plaintext.eq a b = a.is_equal b) ∧ (Plaintext.eq a b = true ↔ a = b) :=
  ⟨rfl, plaintext_is_equal_iff a b⟩

end SnarkVM
